import Mathlib

/-!
Formal model of the Alpha-Bulk-Update contacts tool: the reconciliation and
undo-log subsystem (identity normalization, within-batch dedup, match
classification, transactional apply with snapshot capture, snapshot-based
rollback) and the client-side helpers that feed it (selection handling, the
edit-form email validator, and the API response shapes).

Pure client-side pieces are translated directly from the TypeScript sources
under `frontend/src`.  The server-side engine is not part of the repository
checkout; those definitions are modelled from the specification and from the
repository's own storage documents, and are marked as such in their doc
comments.
-/

namespace BulkUpdate

/-! ## API response shapes (frontend/src/services/api.ts) -/

/-- Field names of the TypeScript interface `UpdateDatabaseResponse`
(api.ts, the response of POST /upload/update-database), in declaration
order. -/
def UpdateDatabaseResponseFields : List String :=
  ["success", "message", "updated_count", "inserted_count", "skipped_count", "errors"]

/-- The TypeScript interface `UpdateDatabaseResponse` (api.ts). -/
structure UpdateDatabaseResponse where
  success : Bool
  message : String
  updated_count : Nat
  inserted_count : Nat
  skipped_count : Nat
  errors : List String
deriving DecidableEq, Repr

/-- Field names of the `summary` object inside the TypeScript interface
`PreviewChangesResponse` (api.ts, the response of POST /upload/preview-changes),
in declaration order. -/
def PreviewSummaryFields : List String :=
  ["updated_count", "new_count", "duplicates_count", "kept_count", "identity_conflicts_count"]

/-- Top-level field names of the TypeScript interface `PreviewChangesResponse`
(api.ts), in declaration order. -/
def PreviewChangesResponseFields : List String :=
  ["updates", "new_records", "duplicates", "identity_conflicts", "summary"]

/-- Field names of the `changes_data.summary` object of the `Snapshot`
interface in RollbackSnapshots.tsx (the stored preview bundle shown in the
rollback UI), in declaration order. -/
def SnapshotSummaryFields : List String :=
  ["updated_count", "new_count", "duplicates_count", "identity_conflicts_count"]

/-! ## Selection handling in the upload preview
(frontend/src/components/Upload/UploadTab.tsx, component `PreviewChanges`) -/

/-- `toggleSelection` (UploadTab.tsx): copies the selected-id set, removes the
id if present, inserts it otherwise. -/
def toggleSelection (selectedIds : Finset Nat) (id : Nat) : Finset Nat :=
  if id ∈ selectedIds then selectedIds.erase id else insert id selectedIds

/-- The synthetic selection id given to the new record at batch index `idx`
(UploadTab.tsx: `const tempId = idx + 10000`, and the same `idx + 10000`
offset in `handlePreview` and `selectAll`). -/
def tempId (idx : Nat) : Nat := idx + 10000

/-- The id set built by `selectAll` and by the auto-select in `handlePreview`
(UploadTab.tsx): the real store id of every update target together with the
synthetic id `idx + 10000` of every new record. -/
def selectAllIds (updateIds : List Nat) (numNew : Nat) : Finset Nat :=
  updateIds.toFinset ∪ (Finset.range numNew).image tempId

/-- The `selected_ids` payload computed in `handleUpdate` (UploadTab.tsx):
`selectedIds.size > 0 ? Array.from(selectedIds) : undefined`. -/
def selectedIdsPayload (selectedIds : Finset Nat) : Option (Finset Nat) :=
  if 0 < selectedIds.card then some selectedIds else none

/-! ## The edit-form email validator
(EditRecordModal, component source in `src/unnamed/part_005`) -/

/-- First index `i ≥ start` with `l[i] = c`, or `none`; the JavaScript
`String.prototype.indexOf(c, start)` with `-1` rendered as `none`. -/
def findFrom : List Char → Char → Nat → Option Nat
  | [], _, _ => none
  | x :: xs, c, 0 => if x = c then some 0 else (findFrom xs c 0).map (· + 1)
  | _ :: xs, c, start + 1 => (findFrom xs c start).map (· + 1)

/-- `validateEmail` (EditRecordModal): rejects the empty string, a string
without `@`, a string without `.`; then with `atIndex = email.indexOf('@')`
and `dotIndex = email.indexOf('.', atIndex)` rejects `dotIndex === -1`,
`dotIndex <= atIndex + 1`, `atIndex === 0` and
`dotIndex === email.length - 1`; accepts otherwise. -/
def validateEmail (email : String) : Bool :=
  let l := email.data
  if l = [] then false
  else if (findFrom l '@' 0).isNone then false
  else if (findFrom l '.' 0).isNone then false
  else
    match findFrom l '@' 0 with
    | none => false
    | some atIndex =>
      match findFrom l '.' atIndex with
      | none => false
      | some dotIndex =>
        if dotIndex ≤ atIndex + 1 then false
        else if atIndex = 0 ∨ dotIndex = l.length - 1 then false
        else true

/-- `handleSubmit` (EditRecordModal) guards the PUT /records/{id} request:
it validates `formData.email || ''` and only issues the request when
`validateEmail` accepts it.  The returned value is `some email` exactly when
the request is sent. -/
def handleSubmitRequest (formEmail : Option String) : Option String :=
  let email := formEmail.getD ""
  if validateEmail email then some email else none

/-- The declarative reading of the claim about `validateEmail`, stated over
the character list of the input: the string is non-empty, its first `'@'`
sits at an index `a > 0`, it contains a `'.'`, the first `'.'` at or after
`a` sits at an index `d` with `d > a + 1`, and `d` is not the last index. -/
def ValidEmailSpec (l : List Char) : Prop :=
  l ≠ [] ∧
  ∃ a d : Nat,
    l.get? a = some '@' ∧ (∀ k, k < a → l.get? k ≠ some '@') ∧ 0 < a ∧
    ('.' ∈ l) ∧
    l.get? d = some '.' ∧ a ≤ d ∧ (∀ k, a ≤ k → k < d → l.get? k ≠ some '.') ∧
    a + 1 < d ∧ d + 1 ≠ l.length

/-! ## Identity normalizer

Modelled from the spec: the backend normalizer module is not part of this
checkout; these functions follow spec section 4.1 and the repository's
storage and migration documents. -/

/-- Leading and trailing whitespace removed. -/
def trimChars (l : List Char) : List Char :=
  ((l.dropWhile Char.isWhitespace).reverse.dropWhile Char.isWhitespace).reverse

/-- The characters following the first occurrence of `mailto:`, if any. -/
def afterMailto : List Char → Option (List Char)
  | [] => none
  | c :: rest =>
    if (c :: rest).take 7 = "mailto:".data then some ((c :: rest).drop 7)
    else afterMailto rest

/-- A character that ends the address part of an embedded link. -/
def emailStop (c : Char) : Bool :=
  decide (c = '"' ∨ c = '<' ∨ c = '>' ∨ c = '?')

/-- Modelled from the spec: when the value embeds a `mailto:` link, the
address is the part after `mailto:` up to the end of the link; otherwise the
value itself. -/
def extractMailto (l : List Char) : List Char :=
  match afterMailto l with
  | none => l
  | some rest => trimChars (rest.takeWhile (fun c => !(emailStop c)))

/-- Modelled from the spec: `normalize_email` — trims whitespace, extracts
the address from an embedded `mailto:` link / HTML anchor when one is
present, and lower-cases; empty or malformed input degrades to the empty
string and the function never throws. -/
def normalizeEmail (s : String) : String :=
  String.mk ((extractMailto (trimChars s.data)).map Char.toLower)

/-- Modelled from the spec: `normalize_phone` — strips every non-digit
character; empty input or no digits yields the empty string. -/
def normalizePhone (s : String) : String :=
  String.mk (s.data.filter Char.isDigit)

/-! ## Data model (store side)

Modelled from the spec and the repository's storage document
(STORAGE_ARCHITECTURE.md, table `contacts_data` and table
`bulk_update_snapshots`): the backend persistence layer is not part of this
checkout. -/

/-- Modelled from the spec: a persisted `contacts_data` row.  `updated_at`
and `created_at` are abstract ticks. -/
structure ContactRecord where
  id : Nat
  company : String
  name : String
  surname : String
  email : String
  position : String
  phone : String
  email_normalized : String
  phone_normalized : String
  created_at : Nat
  updated_at : Nat
deriving DecidableEq, Repr

/-- A transient column-mapped incoming row (the six canonical fields). -/
structure IncomingRecord where
  Company : String
  Name : String
  Surname : String
  Email : String
  Position : String
  Phone : String
deriving DecidableEq, Repr

/-- Modelled from the spec: the store is the ordered `contacts_data` table. -/
abbrev Store := List ContactRecord

/-- Ids present in a store, in row order. -/
def idsOf (s : Store) : List Nat := s.map (·.id)

/-- Row with the given id (first match). -/
def lookupById (s : Store) (i : Nat) : Option ContactRecord :=
  s.find? (fun r => r.id = i)

/-- Largest id present (0 for the empty store). -/
def maxId (s : Store) : Nat := (idsOf s).foldr max 0

/-- Modelled from the spec: the next auto-increment surrogate key. -/
def nextId (s : Store) : Nat := maxId s + 1

/-- Modelled from the spec: a `bulk_update_snapshots` row (the undo log):
full pre-mutation copies of every update target, the generated insert ids,
and the terminal `rolled_back` flag. -/
structure Snapshot where
  records_backup : List ContactRecord
  inserted_record_ids : List Nat
  rolled_back : Bool
deriving DecidableEq, Repr

/-! ## Apply/Commit engine

Modelled from the spec (section 4.5): the backend commit engine is not part
of this checkout. -/

/-- Modelled from the spec: apply one update target — overwrite every mapped
field of the row with the incoming values, recompute the normalized identity
fields, refresh `updated_at`; `id` and `created_at` are untouched. -/
def overwriteFields (r : ContactRecord) (inc : IncomingRecord) (now : Nat) : ContactRecord :=
  { r with
    company := inc.Company
    name := inc.Name
    surname := inc.Surname
    email := inc.Email
    position := inc.Position
    phone := inc.Phone
    email_normalized := normalizeEmail inc.Email
    phone_normalized := normalizePhone inc.Phone
    updated_at := now }

/-- Modelled from the spec: in-place update of the row with id `tid`. -/
def updateRecord (s : Store) (tid : Nat) (inc : IncomingRecord) (now : Nat) : Store :=
  s.map (fun r => if r.id = tid then overwriteFields r inc now else r)

/-- Modelled from the spec: apply every selected update target in order. -/
def applyUpdates (s : Store) (targets : List (Nat × IncomingRecord)) (now : Nat) : Store :=
  targets.foldl (fun acc t => updateRecord acc t.1 t.2 now) s

/-- Modelled from the spec: a freshly inserted row for an incoming record. -/
def mkRecord (rid : Nat) (inc : IncomingRecord) (now : Nat) : ContactRecord :=
  { id := rid
    company := inc.Company
    name := inc.Name
    surname := inc.Surname
    email := inc.Email
    position := inc.Position
    phone := inc.Phone
    email_normalized := normalizeEmail inc.Email
    phone_normalized := normalizePhone inc.Phone
    created_at := now
    updated_at := now }

/-- Modelled from the spec: insert every selected new record, generating a
fresh auto-increment id for each and recording the generated ids. -/
def insertAll (s : Store) (news : List IncomingRecord) (now : Nat) : Store × List Nat :=
  match news with
  | [] => (s, [])
  | n :: rest =>
    let rid := nextId s
    let out := insertAll (s ++ [mkRecord rid n now]) rest now
    (out.1, rid :: out.2)

/-- Modelled from the spec: the apply/commit engine — capture the full
pre-mutation field set of every update target into `records_backup`, apply
the updates, apply the inserts, and record the generated insert ids in the
snapshot (`rolled_back` initialized to `false`). -/
def applyBatch (s : Store) (targets : List (Nat × IncomingRecord))
    (news : List IncomingRecord) (now : Nat) : Store × Snapshot :=
  let backup := targets.filterMap (fun t => lookupById s t.1)
  let s1 := applyUpdates s targets now
  let ins := insertAll s1 news now
  (ins.1, { records_backup := backup, inserted_record_ids := ins.2, rolled_back := false })

/-- Modelled from the spec: whether a preview entry id is selected; an
omitted selection selects everything. -/
def isSelected (sel : Option (Finset Nat)) (i : Nat) : Bool :=
  match sel with
  | none => true
  | some S => i ∈ S

/-- Modelled from the spec: the apply operation with its optional selection —
update targets are selected by their real store id, new records by the
synthetic id `batch index + 10000` used by the preview UI; an omitted
selection applies every classified target. -/
def applyWithSelection (s : Store) (targets : List (Nat × IncomingRecord))
    (news : List IncomingRecord) (sel : Option (Finset Nat)) (now : Nat) :
    Store × Snapshot :=
  applyBatch s
    (targets.filter (fun t => isSelected sel t.1))
    (((news.enum).filter (fun p => isSelected sel (tempId p.1))).map Prod.snd)
    now

/-! ## Rollback executor

Modelled from the spec (section 4.6): the backend rollback executor is not
part of this checkout. -/

/-- Modelled from the spec: restore one backup entry — overwrite the fields
of the row with the matching id with the backed-up values; a missing row is
skipped. -/
def restoreOne (s : Store) (b : ContactRecord) : Store :=
  s.map (fun r => if r.id = b.id then b else r)

/-- Modelled from the spec: the rollback mutation — delete every row whose
id appears in `inserted_record_ids` and still exists, then restore every
`records_backup` entry by id. -/
def rollbackStore (s : Store) (snap : Snapshot) : Store :=
  let s1 := s.filter (fun r => !(snap.inserted_record_ids.contains r.id))
  snap.records_backup.foldl restoreOne s1

/-- Modelled from the spec: ids of backup entries whose row no longer exists
at restore time — reported as a non-fatal partial-restore warning. -/
def rollbackWarnings (s : Store) (snap : Snapshot) : List Nat :=
  let s1 := s.filter (fun r => !(snap.inserted_record_ids.contains r.id))
  (snap.records_backup.filter (fun b => (lookupById s1 b.id).isNone)).map (·.id)

/-- Modelled from the spec: the possible rollback failures. -/
inductive RollbackError where
  | alreadyRolledBack
deriving DecidableEq, Repr

/-- Modelled from the spec: the rollback operation — fails with
`AlreadyRolledBack` when the snapshot's `rolled_back` flag is already set;
otherwise performs the rollback mutation, flips `rolled_back` to `true`,
and reports partial-restore warnings. -/
def rollbackOp (s : Store) (snap : Snapshot) :
    Except RollbackError (Store × Snapshot × List Nat) :=
  if snap.rolled_back then Except.error RollbackError.alreadyRolledBack
  else Except.ok (rollbackStore s snap, { snap with rolled_back := true },
    rollbackWarnings s snap)

/-- The client only offers the Rollback action for a snapshot whose
`rolled_back` flag is false (RollbackSnapshots.tsx: the Rollback button is
rendered under `!snapshot.rolled_back`). -/
def rollbackActionOffered (rolled_back : Bool) : Bool := !rolled_back

/-! ## Reconciliation engine

Modelled from the spec (section 4.2): the backend reconciliation module is
not part of this checkout. -/

/-- Normalized email of an incoming record. -/
def incEmailKey (r : IncomingRecord) : String := normalizeEmail r.Email

/-- Normalized phone of an incoming record. -/
def incPhoneKey (r : IncomingRecord) : String := normalizePhone r.Phone

/-- Modelled from the spec: two incoming records collide for within-batch
dedup when they normalize to the same non-empty email or the same non-empty
phone (an empty normalized field is no identity and never collides). -/
def collide (r1 r2 : IncomingRecord) : Bool :=
  (decide (incEmailKey r1 ≠ "" ∧ incEmailKey r1 = incEmailKey r2)) ||
  (decide (incPhoneKey r1 ≠ "" ∧ incPhoneKey r1 = incPhoneKey r2))

/-- Modelled from the spec: within-batch dedup — a record is dropped when a
later record in the same batch collides with it, so only the last occurrence
of each identity is kept. -/
def dedup : List IncomingRecord → List IncomingRecord
  | [] => []
  | r :: rest => if rest.any (collide r) then dedup rest else r :: dedup rest

/-- Match type of a classified record. -/
inductive MatchType where
  | new
  | email_match
  | phone_match
  | both_match
deriving DecidableEq, Repr

/-- Modelled from the spec: the result of classifying one incoming record
against the store. -/
structure MatchResult where
  match_type : MatchType
  matched_existing_id : Option Nat
  identity_conflict : Bool
deriving DecidableEq, Repr

/-- Modelled from the spec: classification of one (deduplicated) incoming
record against the store's normalized-email and normalized-phone indices.
When email and phone resolve to two different rows (ambiguous cross-match)
the engine flags `identity_conflict` and — as its documented deterministic
tie-break — prefers the email match. -/
def classify (s : Store) (r : IncomingRecord) : MatchResult :=
  let ne := incEmailKey r
  let np := incPhoneKey r
  let eRow := if ne = "" then none else s.find? (fun x => x.email_normalized = ne)
  let pRow := if np = "" then none else s.find? (fun x => x.phone_normalized = np)
  match eRow, pRow with
  | none, none => ⟨MatchType.new, none, false⟩
  | some a, none =>
    ⟨MatchType.email_match, some a.id, decide (np ≠ "" ∧ np ≠ a.phone_normalized)⟩
  | none, some b =>
    ⟨MatchType.phone_match, some b.id, decide (ne ≠ "" ∧ ne ≠ b.email_normalized)⟩
  | some a, some b =>
    if a.id = b.id then ⟨MatchType.both_match, some a.id, false⟩
    else ⟨MatchType.email_match, some a.id, true⟩

/-- Modelled from the spec: the error raised for a record whose normalized
email and normalized phone are both empty. -/
inductive ValidationError where
  | bothIdentityFieldsEmpty
deriving DecidableEq, Repr

/-- The update mode. -/
inductive UpdateMode where
  | replace
  | append
deriving DecidableEq, Repr

/-- Summary counts of a reconciliation result. -/
structure ReconcileSummary where
  updated_count : Nat
  new_count : Nat
  duplicates_count : Nat
  identity_conflicts_count : Nat
deriving DecidableEq, Repr

/-- Modelled from the spec: the reconciliation output — update targets, new
records, duplicates and the summary counts. -/
structure ReconcileResult where
  updates : List (IncomingRecord × MatchResult)
  new_records : List IncomingRecord
  duplicates : List (IncomingRecord × MatchResult)
  summary : ReconcileSummary
deriving DecidableEq, Repr

/-- Modelled from the spec: the reconciliation engine — reject the batch
with a `ValidationError` when any record has both normalized identity fields
empty; otherwise deduplicate within the batch, classify every kept record,
and project by mode (`replace`: matches become update targets; `append`:
matches become duplicates; `new` records are insert targets in both). -/
def reconcile (s : Store) (batch : List IncomingRecord) (mode : UpdateMode) :
    Except ValidationError ReconcileResult :=
  if batch.any (fun r => decide (incEmailKey r = "" ∧ incPhoneKey r = "")) then
    Except.error ValidationError.bothIdentityFieldsEmpty
  else
    let kept := dedup batch
    let classified := kept.map (fun r => (r, classify s r))
    let news := (classified.filter (fun p => p.2.match_type = MatchType.new)).map Prod.fst
    let matched := classified.filter (fun p => p.2.match_type ≠ MatchType.new)
    let ups := match mode with
      | UpdateMode.replace => matched
      | UpdateMode.append => []
    let dups := match mode with
      | UpdateMode.replace => []
      | UpdateMode.append => matched
    Except.ok
      { updates := ups
        new_records := news
        duplicates := dups
        summary :=
          { updated_count := ups.length
            new_count := news.length
            duplicates_count := dups.length
            identity_conflicts_count :=
              (classified.filter (fun p => p.2.identity_conflict)).length } }

/-! ## Proof-side characterizations and concrete fixtures -/

/-- The effect of `applyUpdates` on a single record: fold the per-target
overwrite over the target list. -/
def stepAll (targets : List (Nat × IncomingRecord)) (now : Nat) (r : ContactRecord) :
    ContactRecord :=
  targets.foldl (fun a t => if a.id = t.1 then overwriteFields a t.2 now else a) r

/-- The effect of the restore phase of rollback on a single record: fold the
per-backup-entry overwrite over the backup list. -/
def resAll (backup : List ContactRecord) (r : ContactRecord) : ContactRecord :=
  backup.foldl (fun a b => if a.id = b.id then b else a) r

/-- A one-row concrete store used by witnesses. -/
def sampleStore : Store :=
  [⟨1, "Acme", "John", "Doe", "john@x.com", "Mgr", "5551234", "john@x.com", "5551234", 0, 0⟩]

/-- A concrete update batch against `sampleStore` (changes the phone). -/
def sampleTargets : List (Nat × IncomingRecord) :=
  [(1, ⟨"Acme", "John", "Doe", "john@x.com", "Mgr", "9999999"⟩)]

/-- A concrete insert batch. -/
def sampleNews : List IncomingRecord :=
  [⟨"NewCo", "Jane", "Roe", "jane@y.com", "", "1230007"⟩]

/-! ## Theorems -/

/-- C2 counterexample: the claim says the apply response contains a
`snapshot_id` field; the response interface of POST /upload/update-database
(api.ts, `UpdateDatabaseResponse`) has no such field. -/
theorem C2_no_snapshot_id_counterexample :
    UpdateDatabaseResponseFields.contains "snapshot_id" = false := by decide

/-- C2 (amended): every successful apply invocation returns a result
containing `updated_count` and `inserted_count` (alongside `success`,
`message`, `skipped_count` and `errors`), but no `snapshot_id` field is
part of the response. -/
theorem C2_apply_response_fields :
    "updated_count" ∈ UpdateDatabaseResponseFields ∧
    "inserted_count" ∈ UpdateDatabaseResponseFields ∧
    "success" ∈ UpdateDatabaseResponseFields ∧
    "skipped_count" ∈ UpdateDatabaseResponseFields ∧
    UpdateDatabaseResponseFields.contains "snapshot_id" = false := by decide

/-- C2 witness: the response field list carries `updated_count`. -/
theorem C2_apply_response_fields_witness :
    "updated_count" ∈ UpdateDatabaseResponseFields :=
  C2_apply_response_fields.1

/-- C3 counterexample: the claim says the preview summary consists of
exactly the four counts `updated_count`, `new_count`, `duplicates_count`,
`identity_conflicts_count`; the summary of `PreviewChangesResponse`
(api.ts) also contains `kept_count`, a fifth count field. -/
theorem C3_kept_count_counterexample :
    "kept_count" ∈ PreviewSummaryFields ∧
    SnapshotSummaryFields.contains "kept_count" = false ∧
    PreviewSummaryFields.length = 5 := by decide

/-- C3 (amended): the preview operation's summary contains the four claimed
counts plus `kept_count`, and the response carries `identity_conflicts[]`
alongside `updates[]`, `new_records[]`, `duplicates[]` and `summary`; only
the snapshot's stored `changes_data.summary` consists of exactly the four
claimed counts. -/
theorem C3_preview_summary_fields :
    (∀ f ∈ SnapshotSummaryFields, f ∈ PreviewSummaryFields) ∧
    "kept_count" ∈ PreviewSummaryFields ∧
    SnapshotSummaryFields =
      ["updated_count", "new_count", "duplicates_count", "identity_conflicts_count"] ∧
    PreviewChangesResponseFields =
      ["updates", "new_records", "duplicates", "identity_conflicts", "summary"] := by
  decide

/-- C3 witness: `updated_count`, a snapshot-summary field, appears in the
preview summary. -/
theorem C3_preview_summary_fields_witness :
    "updated_count" ∈ PreviewSummaryFields :=
  C3_preview_summary_fields.1 "updated_count" (by decide)

/-- C10: the selection toggle maps the set to `S \ {x}` when `x ∈ S` and to
`S ∪ {x}` otherwise, and toggling the same id twice returns the original
set. -/
theorem C10_toggle_involution (S : Finset Nat) (x : Nat) :
    toggleSelection S x = (if x ∈ S then S \ {x} else S ∪ {x}) ∧
    toggleSelection (toggleSelection S x) x = S := by
  by_cases h : x ∈ S
  · refine ⟨by simp [toggleSelection, h, Finset.sdiff_singleton_eq_erase], ?_⟩
    have hx : x ∉ S.erase x := Finset.not_mem_erase x S
    simp [toggleSelection, h, hx, Finset.insert_erase h]
  · refine ⟨by simp [toggleSelection, h, Finset.insert_eq, Finset.union_comm], ?_⟩
    have hx : x ∈ insert x S := Finset.mem_insert_self x S
    simp [toggleSelection, h, hx, Finset.erase_insert h]

/-- C5: in the preview selection, an update target is identified by its
real store id and the new record at batch index `i` by the synthetic id
`i + 10000`; the select-all set mixes exactly these two ranges. -/
theorem C5_selection_id_ranges (updateIds : List Nat) (numNew : Nat) (x i : Nat) :
    (x ∈ selectAllIds updateIds numNew ↔
      x ∈ updateIds ∨ ∃ j, j < numNew ∧ x = tempId j) ∧
    tempId i = i + 10000 := by
  constructor
  · simp only [selectAllIds, Finset.mem_union, List.mem_toFinset, Finset.mem_image,
      Finset.mem_range]
    constructor
    · rintro (h | ⟨j, hj, rfl⟩)
      · exact Or.inl h
      · exact Or.inr ⟨j, hj, rfl⟩
    · rintro (h | ⟨j, hj, rfl⟩)
      · exact Or.inl h
      · exact Or.inr ⟨j, hj, rfl⟩
  · rfl

/-- C5 witness: the synthetic id of new record 1 belongs to the select-all
set of a concrete preview. -/
theorem C5_selection_id_ranges_witness :
    (10001 : Nat) ∈ selectAllIds [7] 2 :=
  (C5_selection_id_ranges [7] 2 10001 0).1.mpr (Or.inr ⟨1, by decide, by decide⟩)

/-- C6: the apply selection is optional — an omitted selection applies every
classified update target and every classified new record — and the client
omits `selected_ids` exactly when the selected set is empty, sending the set
itself otherwise. -/
theorem C6_optional_selection (S : Finset Nat) (s : Store)
    (targets : List (Nat × IncomingRecord)) (news : List IncomingRecord) (now : Nat) :
    (selectedIdsPayload S = none ↔ S = ∅) ∧
    (S.Nonempty → selectedIdsPayload S = some S) ∧
    applyWithSelection s targets news none now = applyBatch s targets news now := by
  refine ⟨?_, ?_, ?_⟩
  · constructor
    · intro h
      by_contra hne
      have hpos : 0 < S.card :=
        Finset.card_pos.mpr (Finset.nonempty_of_ne_empty hne)
      simp [selectedIdsPayload, hpos] at h
    · intro h
      simp [selectedIdsPayload, h]
  · intro h
    simp [selectedIdsPayload, Finset.card_pos.mpr h]
  · simp [applyWithSelection, isSelected, List.filter_true, List.enum_map_snd]

/-- C6 witness: the payload at an empty and at a non-empty concrete set. -/
theorem C6_optional_selection_witness :
    selectedIdsPayload (∅ : Finset Nat) = none ∧
    selectedIdsPayload ({5} : Finset Nat) = some {5} :=
  ⟨(C6_optional_selection ∅ [] [] [] 0).1.mpr rfl,
   (C6_optional_selection {5} [] [] [] 0).2.1 ⟨5, Finset.mem_singleton_self 5⟩⟩

/-- C4: a snapshot whose `rolled_back` flag is set is never rolled back
again — the rollback operation fails with `AlreadyRolledBack` on it and the
client offers the Rollback action only while the flag is false — and a
successful rollback is exactly the transition from `rolled_back = false` to
`rolled_back = true`. -/
theorem C4_rollback_terminal (s : Store) (snap : Snapshot) :
    (snap.rolled_back = true →
      rollbackOp s snap = Except.error RollbackError.alreadyRolledBack ∧
      rollbackActionOffered snap.rolled_back = false) ∧
    (∀ s' snap' w, rollbackOp s snap = Except.ok (s', snap', w) →
      snap.rolled_back = false ∧ snap'.rolled_back = true ∧
      rollbackActionOffered snap.rolled_back = true) := by
  constructor
  · intro h
    simp [rollbackOp, h, rollbackActionOffered]
  · intro s' snap' w h
    cases hb : snap.rolled_back with
    | true => simp [rollbackOp, hb] at h
    | false =>
      simp only [rollbackOp, hb, Bool.false_eq_true, if_false, Except.ok.injEq,
        Prod.mk.injEq] at h
      refine ⟨rfl, ?_, by simp [rollbackActionOffered]⟩
      have : snap' = { snap with rolled_back := true } := (h.2.1).symm
      simp [this]

/-- C4 witness: the rejection at a concrete already-rolled-back snapshot and
the flag flip at a concrete fresh snapshot. -/
theorem C4_rollback_terminal_witness :
    (rollbackOp ([] : Store) ⟨[], [], true⟩ =
      Except.error RollbackError.alreadyRolledBack ∧
     rollbackActionOffered (Snapshot.mk [] [] true).rolled_back = false) ∧
    ((Snapshot.mk [] [] false).rolled_back = false ∧
     ({ Snapshot.mk [] [] false with rolled_back := true }).rolled_back = true ∧
     rollbackActionOffered (Snapshot.mk [] [] false).rolled_back = true) :=
  ⟨(C4_rollback_terminal [] ⟨[], [], true⟩).1 rfl,
   (C4_rollback_terminal [] ⟨[], [], false⟩).2
     (rollbackStore [] ⟨[], [], false⟩) _ (rollbackWarnings [] ⟨[], [], false⟩) rfl⟩

/-- C7: a record whose normalized email and normalized phone are both empty
makes reconciliation fail with a `ValidationError` before any
classification: no result with classified records is produced at all. -/
theorem C7_validation_error (s : Store) (batch : List IncomingRecord)
    (mode : UpdateMode) (r : IncomingRecord) (hr : r ∈ batch)
    (he : incEmailKey r = "") (hp : incPhoneKey r = "") :
    reconcile s batch mode = Except.error ValidationError.bothIdentityFieldsEmpty := by
  unfold reconcile
  rw [if_pos]
  exact List.any_eq_true.mpr ⟨r, hr, by simp [he, hp]⟩

/-- C7 witness: the all-empty incoming record is rejected. -/
theorem C7_validation_error_witness :
    reconcile [] [⟨"", "", "", "", "", ""⟩] UpdateMode.replace =
      Except.error ValidationError.bothIdentityFieldsEmpty :=
  C7_validation_error [] [⟨"", "", "", "", "", ""⟩] UpdateMode.replace
    ⟨"", "", "", "", "", ""⟩ (by decide) (by decide) (by decide)

/-- A record with no later collision in the batch survives dedup. -/
theorem mem_dedup_self :
    ∀ (b : List IncomingRecord) (j : Nat) (hj : j < b.length),
      (b.drop (j + 1)).any (collide (b.get ⟨j, hj⟩)) = false →
      b.get ⟨j, hj⟩ ∈ dedup b := by
  intro b
  induction b with
  | nil => intro j hj; simp at hj
  | cons r rest ih =>
    intro j hj h
    cases j with
    | zero =>
      have h' : rest.any (collide r) = false := by simpa using h
      simp [dedup, h']
    | succ k =>
      have hk : k < rest.length := by simpa using hj
      have h' : (rest.drop (k + 1)).any (collide (rest.get ⟨k, hk⟩)) = false := by
        simpa using h
      have hm := ih k hk h'
      by_cases hc : rest.any (collide r) = true
      · simpa [dedup, hc] using hm
      · simp only [dedup, hc, if_false]
        exact List.mem_cons_of_mem r (by simpa using hm)

/-- Dedup of a concatenation: the output is some survivors of the prefix
followed by the dedup of the suffix (each record's keep-decision looks only
at later records). -/
theorem dedup_append :
    ∀ (l1 s : List IncomingRecord),
      ∃ p, (∀ x ∈ p, x ∈ l1) ∧ dedup (l1 ++ s) = p ++ dedup s := by
  intro l1 s
  induction l1 with
  | nil => exact ⟨[], by simp, by simp⟩
  | cons x l1' ih =>
    obtain ⟨p, hp, he⟩ := ih
    have hcons : dedup (x :: (l1' ++ s)) =
        if (l1' ++ s).any (collide x) = true then dedup (l1' ++ s)
        else x :: dedup (l1' ++ s) := rfl
    by_cases hc : (l1' ++ s).any (collide x) = true
    · exact ⟨p, fun y hy => List.mem_cons_of_mem x (hp y hy),
        by rw [List.cons_append, hcons, if_pos hc, he]⟩
    · refine ⟨x :: p, ?_, ?_⟩
      · intro y hy
        rcases List.mem_cons.mp hy with h | h
        · exact h ▸ List.mem_cons_self x l1'
        · exact List.mem_cons_of_mem x (hp y h)
      · rw [List.cons_append, hcons, if_neg hc, he, List.cons_append]

/-- C8: when two records of the same batch collide on a non-empty
normalized email or phone, within-batch dedup discards the earlier one —
the output consists of survivors of the records before it and the dedup of
the records after it, with no contribution of its own — and the later
record, when it is the last of its identity, is classified. -/
theorem C8_dedup_keeps_last (l1 l2 : List IncomingRecord) (r : IncomingRecord)
    (hcol : l2.any (collide r) = true) :
    (∃ p, (∀ x ∈ p, x ∈ l1) ∧ dedup (l1 ++ r :: l2) = p ++ dedup l2) ∧
    (∀ (j : Nat) (hj : j < l2.length), collide r (l2.get ⟨j, hj⟩) = true →
      (l2.drop (j + 1)).any (collide (l2.get ⟨j, hj⟩)) = false →
      l2.get ⟨j, hj⟩ ∈ dedup (l1 ++ r :: l2)) := by
  obtain ⟨p, hp, he⟩ := dedup_append l1 (r :: l2)
  have hr : dedup (r :: l2) = dedup l2 := by simp [dedup, hcol]
  constructor
  · exact ⟨p, hp, by rw [he, hr]⟩
  · intro j hj _ hlast
    have hm := mem_dedup_self l2 j hj hlast
    rw [he, hr]
    exact List.mem_append_right p hm

/-- C8 witness: of two batch records normalizing to the same email, only
the later one survives dedup. -/
theorem C8_dedup_keeps_last_witness :
    (⟨"X", "N", "S", " A@B.C ", "", ""⟩ : IncomingRecord) ∈
      dedup [⟨"", "", "", "a@b.c", "", ""⟩, ⟨"X", "N", "S", " A@B.C ", "", ""⟩] := by
  have h := (C8_dedup_keeps_last [] [⟨"X", "N", "S", " A@B.C ", "", ""⟩]
    ⟨"", "", "", "a@b.c", "", ""⟩ (by decide)).2 0 (by decide) (by decide) (by decide)
  simpa using h

/-- A successful `findFrom` search returns the first index at or after the
start position holding the character. -/
theorem findFrom_some :
    ∀ (l : List Char) (c : Char) (s i : Nat), findFrom l c s = some i →
      s ≤ i ∧ l.get? i = some c ∧ ∀ k, s ≤ k → k < i → l.get? k ≠ some c := by
  intro l
  induction l with
  | nil => intro c s i h; simp [findFrom] at h
  | cons x xs ih =>
    intro c s i h
    cases s with
    | zero =>
      by_cases hx : x = c
      · rw [findFrom, if_pos hx] at h
        obtain rfl : (0 : Nat) = i := Option.some.inj h
        exact ⟨Nat.le_refl 0, by simp [hx], fun k _ hk => absurd hk (Nat.not_lt_zero k)⟩
      · rw [findFrom, if_neg hx] at h
        obtain ⟨i', hi', rfl⟩ := Option.map_eq_some'.mp h
        obtain ⟨_, hget, hmin⟩ := ih c 0 i' hi'
        refine ⟨Nat.zero_le _, by simpa using hget, ?_⟩
        intro k _ hk
        cases k with
        | zero => simpa using fun hxc => hx hxc
        | succ k' =>
          have : k' < i' := Nat.lt_of_succ_lt_succ hk
          simpa using hmin k' (Nat.zero_le k') this
    | succ s' =>
      rw [findFrom] at h
      obtain ⟨i', hi', rfl⟩ := Option.map_eq_some'.mp h
      obtain ⟨hs, hget, hmin⟩ := ih c s' i' hi'
      refine ⟨Nat.succ_le_succ hs, by simpa using hget, ?_⟩
      intro k hk1 hk2
      cases k with
      | zero => exact absurd hk1 (by omega)
      | succ k' =>
        have h1 : s' ≤ k' := Nat.le_of_succ_le_succ hk1
        have h2 : k' < i' := Nat.lt_of_succ_lt_succ hk2
        simpa using hmin k' h1 h2

/-- A character present at or after the start position makes `findFrom`
succeed, at an index no later than the occurrence. -/
theorem findFrom_complete :
    ∀ (l : List Char) (c : Char) (s i : Nat), l.get? i = some c → s ≤ i →
      ∃ j, findFrom l c s = some j ∧ j ≤ i := by
  intro l
  induction l with
  | nil => intro c s i h; simp at h
  | cons x xs ih =>
    intro c s i h hs
    cases s with
    | zero =>
      by_cases hx : x = c
      · exact ⟨0, by rw [findFrom, if_pos hx], Nat.zero_le i⟩
      · cases i with
        | zero => exact absurd (Option.some.inj h) hx
        | succ i' =>
          obtain ⟨j', hj', hle⟩ := ih c 0 i' (by simpa using h) (Nat.zero_le i')
          exact ⟨j' + 1, by rw [findFrom, if_neg hx, hj']; rfl, Nat.succ_le_succ hle⟩
    | succ s' =>
      cases i with
      | zero => exact absurd hs (by omega)
      | succ i' =>
        obtain ⟨j', hj', hle⟩ := ih c s' i' (by simpa using h) (Nat.le_of_succ_le_succ hs)
        exact ⟨j' + 1, by rw [findFrom, hj']; rfl, Nat.succ_le_succ hle⟩

/-- The exact index of the first occurrence at or after the start position
determines the result of `findFrom`. -/
theorem findFrom_eq_of_first (l : List Char) (c : Char) (s i : Nat)
    (hget : l.get? i = some c) (hs : s ≤ i)
    (hmin : ∀ k, s ≤ k → k < i → l.get? k ≠ some c) :
    findFrom l c s = some i := by
  obtain ⟨j, hj, hle⟩ := findFrom_complete l c s i hget hs
  obtain ⟨hsj, hjget, _⟩ := findFrom_some l c s j hj
  rcases Nat.lt_or_ge j i with hlt | hge
  · exact absurd hjget (hmin j hsj hlt)
  · rw [hj, Nat.le_antisymm hle hge]

/-- C9: the edit form's `validateEmail` accepts a string exactly when it is
non-empty, its first `'@'` sits at an index `a > 0`, it contains a `'.'`,
and the first `'.'` at or after `a` sits at an index `d` with `d > a + 1`
that is not the last index; and `handleSubmit` issues the PUT update request
only for an accepted email, so the empty email is never saved. -/
theorem C9_validate_email_guard (str : String) :
    (validateEmail str = true ↔ ValidEmailSpec str.data) ∧
    (∀ e : Option String, (handleSubmitRequest e).isSome = true →
      validateEmail (e.getD "") = true) ∧
    validateEmail "" = false := by
  refine ⟨?_, ?_, rfl⟩
  · constructor
    · intro h
      unfold validateEmail at h
      by_cases hnil : str.data = []
      · rw [if_pos hnil] at h; exact absurd h (by simp)
      rw [if_neg hnil] at h
      rcases hat : findFrom str.data '@' 0 with _ | a
      · rw [hat] at h; exact absurd h (by simp)
      rcases hdot0 : findFrom str.data '.' 0 with _ | d0
      · rw [hdot0] at h; exact absurd h (by simp)
      rw [hat, hdot0] at h
      simp only [Option.isNone_some, Bool.false_eq_true, if_false] at h
      rcases hdot : findFrom str.data '.' a with _ | d
      · rw [hdot] at h; exact absurd h (by simp)
      rw [hdot] at h
      have h' : (if d ≤ a + 1 then false
          else if a = 0 ∨ d = str.data.length - 1 then false else true) = true := h
      by_cases hle : d ≤ a + 1
      · rw [if_pos hle] at h'; exact absurd h' (by simp)
      rw [if_neg hle] at h'
      by_cases hzero : a = 0 ∨ d = str.data.length - 1
      · rw [if_pos hzero] at h'; exact absurd h' (by simp)
      push_neg at hzero
      obtain ⟨ha0, hdlast⟩ := hzero
      obtain ⟨-, haget, hamin⟩ := findFrom_some str.data '@' 0 a hat
      obtain ⟨had, hdget, hdmin⟩ := findFrom_some str.data '.' a d hdot
      obtain ⟨-, hd0get, -⟩ := findFrom_some str.data '.' 0 d0 hdot0
      have hdlen : d < str.data.length := by
        obtain ⟨hlt, -⟩ := List.get?_eq_some.mp hdget
        exact hlt
      refine ⟨hnil, a, d, haget, fun k hk => hamin k (Nat.zero_le k) hk,
        Nat.pos_of_ne_zero ha0, List.get?_mem hd0get, hdget, had,
        fun k hk1 hk2 => hdmin k hk1 hk2, by omega, by omega⟩
    · rintro ⟨hnil, a, d, haget, hamin, ha0, hdotmem, hdget, had, hdmin, hgap, hlast⟩
      obtain ⟨d0, hd0⟩ := List.mem_iff_get?.mp hdotmem
      obtain ⟨j0, hj0, -⟩ := findFrom_complete str.data '.' 0 d0 hd0 (Nat.zero_le d0)
      have hat : findFrom str.data '@' 0 = some a :=
        findFrom_eq_of_first str.data '@' 0 a haget (Nat.zero_le a)
          (fun k _ hk => hamin k hk)
      have hdot : findFrom str.data '.' a = some d :=
        findFrom_eq_of_first str.data '.' a d hdget had hdmin
      have hdlen : d < str.data.length := by
        obtain ⟨hlt, -⟩ := List.get?_eq_some.mp hdget
        exact hlt
      unfold validateEmail
      rw [if_neg hnil, hat, hj0]
      simp only [Option.isNone_some, Bool.false_eq_true, if_false]
      rw [hdot]
      show (if d ≤ a + 1 then false
        else if a = 0 ∨ d = str.data.length - 1 then false else true) = true
      rw [if_neg (by omega : ¬d ≤ a + 1),
        if_neg (by omega : ¬(a = 0 ∨ d = str.data.length - 1))]
  · intro e h
    unfold handleSubmitRequest at h
    by_cases hv : validateEmail (e.getD "") = true
    · exact hv
    · rw [if_neg hv] at h; exact absurd h (by simp)

/-- C9 witness: a concrete well-formed email satisfies the declarative
characterization and passes the submit guard. -/
theorem C9_validate_email_guard_witness :
    ValidEmailSpec ("ab@cd.ef".data) ∧
    validateEmail ((some "ab@cd.ef").getD "") = true :=
  ⟨(C9_validate_email_guard "ab@cd.ef").1.mp (by decide),
   (C9_validate_email_guard "ab@cd.ef").2.1 (some "ab@cd.ef") (by decide)⟩

/-- Overwriting fields preserves the surrogate key. -/
theorem overwriteFields_id (r : ContactRecord) (inc : IncomingRecord) (now : Nat) :
    (overwriteFields r inc now).id = r.id := rfl

/-- `stepAll` preserves the surrogate key. -/
theorem stepAll_id :
    ∀ (targets : List (Nat × IncomingRecord)) (now : Nat) (r : ContactRecord),
      (stepAll targets now r).id = r.id := by
  intro targets
  induction targets with
  | nil => intro now r; rfl
  | cons t ts ih =>
    intro now r
    show (stepAll ts now (if r.id = t.1 then overwriteFields r t.2 now else r)).id = r.id
    rw [ih]
    by_cases h : r.id = t.1
    · rw [if_pos h]; rfl
    · rw [if_neg h]

/-- A record that is no update target is untouched by `stepAll`. -/
theorem stepAll_not_target :
    ∀ (targets : List (Nat × IncomingRecord)) (now : Nat) (r : ContactRecord),
      r.id ∉ targets.map Prod.fst → stepAll targets now r = r := by
  intro targets
  induction targets with
  | nil => intro now r _; rfl
  | cons t ts ih =>
    intro now r h
    have h1 : r.id ≠ t.1 := fun he => h (by simp [he])
    have h2 : r.id ∉ ts.map Prod.fst := fun hm => h (by simp [hm])
    show stepAll ts now (if r.id = t.1 then overwriteFields r t.2 now else r) = r
    rw [if_neg h1]
    exact ih now r h2

/-- `applyUpdates` is the pointwise map of `stepAll` over the store. -/
theorem applyUpdates_eq_map :
    ∀ (targets : List (Nat × IncomingRecord)) (s : Store) (now : Nat),
      applyUpdates s targets now = s.map (stepAll targets now) := by
  intro targets
  induction targets with
  | nil =>
    intro s now
    show s = s.map (fun r => r)
    rw [List.map_id']
  | cons t ts ih =>
    intro s now
    show applyUpdates (updateRecord s t.1 t.2 now) ts now = _
    rw [ih, updateRecord, List.map_map]
    rfl

/-- The restore fold is the pointwise map of `resAll` over the store. -/
theorem restore_foldl_eq_map :
    ∀ (backup : List ContactRecord) (s : Store),
      backup.foldl restoreOne s = s.map (resAll backup) := by
  intro backup
  induction backup with
  | nil =>
    intro s
    show s = s.map (fun r => r)
    rw [List.map_id']
  | cons b bs ih =>
    intro s
    show bs.foldl restoreOne (restoreOne s b) = _
    rw [ih, restoreOne, List.map_map]
    rfl

/-- A record whose id matches no backup entry is untouched by `resAll`. -/
theorem resAll_no_match :
    ∀ (backup : List ContactRecord) (r : ContactRecord),
      (∀ b ∈ backup, b.id ≠ r.id) → resAll backup r = r := by
  intro backup
  induction backup with
  | nil => intro r _; rfl
  | cons b bs ih =>
    intro r h
    show resAll bs (if r.id = b.id then b else r) = r
    rw [if_neg fun hc => h b (List.mem_cons_self b bs) hc.symm]
    exact ih r fun b' hb' => h b' (List.mem_cons_of_mem b hb')

/-- When every backup entry carrying the target id equals the original
record and at least one such entry exists (or the accumulator already is the
original), the restore fold produces the original record. -/
theorem resAll_restores :
    ∀ (backup : List ContactRecord) (acc orig : ContactRecord),
      acc.id = orig.id →
      (∀ b ∈ backup, b.id = orig.id → b = orig) →
      ((∃ b ∈ backup, b.id = orig.id) ∨ acc = orig) →
      resAll backup acc = orig := by
  intro backup
  induction backup with
  | nil =>
    rintro acc orig h1 h2 (⟨b, hb, _⟩ | rfl)
    · exact absurd hb (List.not_mem_nil b)
    · rfl
  | cons b bs ih =>
    intro acc orig h1 h2 h3
    show resAll bs (if acc.id = b.id then b else acc) = orig
    by_cases hb : b.id = orig.id
    · have hbo : b = orig := h2 b (List.mem_cons_self b bs) hb
      rw [if_pos (by rw [h1, hb])]
      exact ih b orig hb (fun b' hb' h => h2 b' (List.mem_cons_of_mem b hb') h)
        (Or.inr hbo)
    · rw [if_neg (by rw [h1]; exact fun h => hb h.symm)]
      refine ih acc orig h1 (fun b' hb' h => h2 b' (List.mem_cons_of_mem b hb') h) ?_
      rcases h3 with ⟨b', hb', hid⟩ | rfl
      · rcases List.mem_cons.mp hb' with rfl | hbs
        · exact absurd hid hb
        · exact Or.inl ⟨b', hbs, hid⟩
      · exact Or.inr rfl

/-- A successful id lookup returns a member carrying that id. -/
theorem lookupById_some (s : Store) (i : Nat) (b : ContactRecord)
    (h : lookupById s i = some b) : b ∈ s ∧ b.id = i :=
  ⟨List.mem_of_find?_eq_some h, by simpa using List.find?_some h⟩

/-- An id absent from the store makes the lookup fail. -/
theorem lookupById_none (s : Store) (i : Nat) (h : i ∉ idsOf s) :
    lookupById s i = none := by
  rw [lookupById, List.find?_eq_none]
  intro r hr hp
  have hri : r.id = i := by simpa using hp
  exact h (hri ▸ List.mem_map_of_mem (·.id) hr)

/-- In a store with pairwise-distinct ids, looking up a member's id returns
exactly that member. -/
theorem lookupById_self :
    ∀ (s : Store), (idsOf s).Nodup → ∀ r ∈ s, lookupById s r.id = some r := by
  intro s
  induction s with
  | nil => intro _ r hr; exact absurd hr (List.not_mem_nil r)
  | cons x xs ih =>
    intro hnd r hr
    have hnd' : (x.id :: idsOf xs).Nodup := by simpa [idsOf] using hnd
    rcases List.mem_cons.mp hr with rfl | hxs
    · exact List.find?_cons_of_pos _ (by simp)
    · have hx : ¬x.id = r.id := fun he =>
        (List.nodup_cons.mp hnd').1 (he ▸ List.mem_map_of_mem (·.id) hxs)
      rw [lookupById, List.find?_cons_of_neg _ (by simp [hx])]
      exact ih (List.nodup_cons.mp hnd').2 r hxs

/-- In a store with pairwise-distinct ids, two members with the same id are
the same record. -/
theorem eq_of_mem_id (s : Store) (hnd : (idsOf s).Nodup) (b r : ContactRecord)
    (hb : b ∈ s) (hr : r ∈ s) (hid : b.id = r.id) : b = r := by
  have h1 := lookupById_self s hnd b hb
  have h2 := lookupById_self s hnd r hr
  rw [hid] at h1
  exact Option.some.inj (h1.symm.trans h2)

/-- Folding `max` from an arbitrary seed. -/
theorem foldr_max_init :
    ∀ (l : List Nat) (i : Nat), l.foldr max i = max (l.foldr max 0) i := by
  intro l
  induction l with
  | nil => intro i; simp
  | cons x xs ih =>
    intro i
    show max x (xs.foldr max i) = max (max x (xs.foldr max 0)) i
    rw [ih, Nat.max_assoc]

/-- `maxId` over a concatenation. -/
theorem maxId_append (a b : Store) : maxId (a ++ b) = max (maxId a) (maxId b) := by
  rw [maxId, idsOf, List.map_append, List.foldr_append, foldr_max_init]
  rfl

/-- Every member's id is bounded by `maxId`. -/
theorem le_maxId_of_mem : ∀ (s : Store) (r : ContactRecord), r ∈ s → r.id ≤ maxId s := by
  intro s
  induction s with
  | nil => intro r hr; exact absurd hr (List.not_mem_nil r)
  | cons x xs ih =>
    intro r hr
    have hm : maxId (x :: xs) = max x.id (maxId xs) := rfl
    rcases List.mem_cons.mp hr with rfl | hxs
    · rw [hm]; exact Nat.le_max_left _ _
    · rw [hm]; exact Nat.le_trans (ih r hxs) (Nat.le_max_right _ _)

/-- `applyUpdates` preserves the id list of the store. -/
theorem idsOf_applyUpdates (s : Store) (targets : List (Nat × IncomingRecord))
    (now : Nat) : idsOf (applyUpdates s targets now) = idsOf s := by
  rw [applyUpdates_eq_map, idsOf, List.map_map, idsOf]
  exact List.map_eq_map_iff.mpr fun r _ => stepAll_id targets now r

/-- The unfolding equation of `insertAll` on a non-empty insert batch. -/
theorem insertAll_cons (s : Store) (n : IncomingRecord) (rest : List IncomingRecord)
    (now : Nat) :
    insertAll s (n :: rest) now =
      ((insertAll (s ++ [mkRecord (nextId s) n now]) rest now).1,
        nextId s :: (insertAll (s ++ [mkRecord (nextId s) n now]) rest now).2) := rfl

/-- `insertAll` appends a tail of fresh rows: the output store is the input
followed by the new rows, the recorded ids are exactly the new rows' ids,
and every recorded id is strictly above every pre-existing id. -/
theorem insertAll_spec :
    ∀ (news : List IncomingRecord) (s : Store) (now : Nat),
      ∃ tail, (insertAll s news now).1 = s ++ tail ∧
        idsOf tail = (insertAll s news now).2 ∧
        ∀ i ∈ (insertAll s news now).2, maxId s < i := by
  intro news
  induction news with
  | nil =>
    intro s now
    exact ⟨[], by simp [insertAll], by simp [insertAll, idsOf], by simp [insertAll]⟩
  | cons n rest ih =>
    intro s now
    obtain ⟨tail', h1, h2, h3⟩ := ih (s ++ [mkRecord (nextId s) n now]) now
    refine ⟨mkRecord (nextId s) n now :: tail', ?_, ?_, ?_⟩
    · rw [insertAll_cons, h1, List.append_assoc]
      rfl
    · rw [insertAll_cons]
      show (mkRecord (nextId s) n now).id :: idsOf tail' = _
      rw [h2]
      rfl
    · intro i hi
      rw [insertAll_cons] at hi
      rcases List.mem_cons.mp hi with rfl | hrest
      · exact Nat.lt_succ_self (maxId s)
      · have hgt := h3 i hrest
        have hle : maxId s ≤ maxId (s ++ [mkRecord (nextId s) n now]) := by
          rw [maxId_append]; exact Nat.le_max_left _ _
        omega

/-- Every backup entry is a member of the pre-apply store and its id is a
target id. -/
theorem backup_mem (s : Store) (targets : List (Nat × IncomingRecord))
    (b : ContactRecord) (hb : b ∈ targets.filterMap (fun t => lookupById s t.1)) :
    b ∈ s ∧ b.id ∈ targets.map Prod.fst := by
  obtain ⟨t, ht, hfind⟩ := List.mem_filterMap.mp hb
  obtain ⟨hmem, hid⟩ := lookupById_some s t.1 b hfind
  exact ⟨hmem, hid ▸ List.mem_map_of_mem Prod.fst ht⟩

/-- In a store with pairwise-distinct ids, every member whose id is a target
id appears in the backup. -/
theorem backup_has_target (s : Store) (hnd : (idsOf s).Nodup)
    (targets : List (Nat × IncomingRecord)) (r : ContactRecord) (hr : r ∈ s)
    (hid : r.id ∈ targets.map Prod.fst) :
    r ∈ targets.filterMap (fun t => lookupById s t.1) := by
  obtain ⟨t, ht, htid⟩ := List.mem_map.mp hid
  exact List.mem_filterMap.mpr ⟨t, ht, by rw [htid]; exact lookupById_self s hnd r hr⟩

/-- Applying a batch and then performing its snapshot's rollback mutation
restores the store exactly: inserted rows are deleted, updated rows are
overwritten back with their backed-up field values, untouched rows stay. -/
theorem rollback_applyBatch (s : Store) (targets : List (Nat × IncomingRecord))
    (news : List IncomingRecord) (now : Nat) (hnd : (idsOf s).Nodup) :
    rollbackStore (applyBatch s targets news now).1 (applyBatch s targets news now).2 = s := by
  obtain ⟨tail, htail1, htail2, htail3⟩ :=
    insertAll_spec news (applyUpdates s targets now) now
  show (targets.filterMap fun t => lookupById s t.1).foldl restoreOne
      ((insertAll (applyUpdates s targets now) news now).1.filter
        (fun r => !((insertAll (applyUpdates s targets now) news now).2.contains r.id))) = s
  rw [htail1, List.filter_append]
  have hufilter : (applyUpdates s targets now).filter
      (fun r => !((insertAll (applyUpdates s targets now) news now).2.contains r.id)) =
      applyUpdates s targets now := by
    apply List.filter_eq_self.mpr
    intro r hr
    have hle : r.id ≤ maxId (applyUpdates s targets now) := le_maxId_of_mem _ r hr
    have hnm : r.id ∉ (insertAll (applyUpdates s targets now) news now).2 := by
      intro hmem
      exact absurd (htail3 r.id hmem) (by omega)
    simp [List.elem_eq_mem, hnm]
  have htfilter : tail.filter
      (fun r => !((insertAll (applyUpdates s targets now) news now).2.contains r.id)) = [] := by
    apply List.filter_eq_nil_iff.mpr
    intro r hr
    have hmem : r.id ∈ (insertAll (applyUpdates s targets now) news now).2 := by
      rw [← htail2]; exact List.mem_map_of_mem (·.id) hr
    simp [List.elem_eq_mem, hmem]
  rw [hufilter, htfilter, List.append_nil, restore_foldl_eq_map,
    applyUpdates_eq_map, List.map_map]
  have hpoint : ∀ r ∈ s,
      ((resAll (targets.filterMap fun t => lookupById s t.1)) ∘
        stepAll targets now) r = id r := by
    intro r hr
    show resAll (targets.filterMap fun t => lookupById s t.1)
      (stepAll targets now r) = r
    have hvid : (stepAll targets now r).id = r.id := stepAll_id targets now r
    by_cases hT : r.id ∈ targets.map Prod.fst
    · apply resAll_restores _ _ r hvid
      · intro b hb hbid
        obtain ⟨hbs, -⟩ := backup_mem s targets b hb
        exact eq_of_mem_id s hnd b r hbs hr hbid
      · exact Or.inl ⟨r, backup_has_target s hnd targets r hr hT, rfl⟩
    · rw [stepAll_not_target targets now r hT]
      apply resAll_no_match
      intro b hb hbid
      obtain ⟨-, hbt⟩ := backup_mem s targets b hb
      exact hT (hbid ▸ hbt)
  rw [List.map_eq_map_iff.mpr hpoint, List.map_id]

/-- C1: for every committed batch against a store with pairwise-distinct
ids, rolling back the batch's snapshot is a net no-op: the rollback
operation succeeds, returns exactly the pre-apply store and flips only the
`rolled_back` flag; every backed-up id denotes its pre-apply record, and
every inserted id was absent from the pre-apply store. -/
theorem C1_apply_rollback_roundtrip (s : Store) (targets : List (Nat × IncomingRecord))
    (news : List IncomingRecord) (now : Nat) (hnd : (idsOf s).Nodup) :
    rollbackOp (applyBatch s targets news now).1 (applyBatch s targets news now).2 =
      Except.ok (s,
        { (applyBatch s targets news now).2 with rolled_back := true },
        rollbackWarnings (applyBatch s targets news now).1
          (applyBatch s targets news now).2) ∧
    (∀ b ∈ (applyBatch s targets news now).2.records_backup,
      lookupById s b.id = some b) ∧
    (∀ i ∈ (applyBatch s targets news now).2.inserted_record_ids,
      lookupById s i = none) := by
  refine ⟨?_, ?_, ?_⟩
  · have hrb : (applyBatch s targets news now).2.rolled_back = false := rfl
    rw [rollbackOp, if_neg (by simp [hrb]), rollback_applyBatch s targets news now hnd]
  · intro b hb
    have hb' : b ∈ targets.filterMap (fun t => lookupById s t.1) := hb
    obtain ⟨hbs, -⟩ := backup_mem s targets b hb'
    exact lookupById_self s hnd b hbs
  · intro i hi
    obtain ⟨tail, htail1, htail2, htail3⟩ :=
      insertAll_spec news (applyUpdates s targets now) now
    have hi' : i ∈ (insertAll (applyUpdates s targets now) news now).2 := hi
    have hgt : maxId (applyUpdates s targets now) < i := htail3 i hi'
    have hmaxu : maxId (applyUpdates s targets now) = maxId s := by
      unfold maxId
      rw [idsOf_applyUpdates]
    apply lookupById_none
    intro hmem
    obtain ⟨r, hrs, hrid⟩ := List.mem_map.mp hmem
    have hle : r.id ≤ maxId s := le_maxId_of_mem s r hrs
    omega

/-- C1 witness: the roundtrip at a concrete store, update batch and insert
batch, the backup lookup of the updated row, and the freshness of the
generated insert id. -/
theorem C1_apply_rollback_roundtrip_witness :
    (rollbackOp (applyBatch sampleStore sampleTargets sampleNews 1).1
        (applyBatch sampleStore sampleTargets sampleNews 1).2 =
      Except.ok (sampleStore,
        { (applyBatch sampleStore sampleTargets sampleNews 1).2 with rolled_back := true },
        rollbackWarnings (applyBatch sampleStore sampleTargets sampleNews 1).1
          (applyBatch sampleStore sampleTargets sampleNews 1).2)) ∧
    lookupById sampleStore
        (⟨1, "Acme", "John", "Doe", "john@x.com", "Mgr", "5551234", "john@x.com",
          "5551234", 0, 0⟩ : ContactRecord).id =
      some ⟨1, "Acme", "John", "Doe", "john@x.com", "Mgr", "5551234", "john@x.com",
        "5551234", 0, 0⟩ ∧
    lookupById sampleStore 2 = none :=
  ⟨(C1_apply_rollback_roundtrip sampleStore sampleTargets sampleNews 1 (by decide)).1,
   (C1_apply_rollback_roundtrip sampleStore sampleTargets sampleNews 1 (by decide)).2.1
     ⟨1, "Acme", "John", "Doe", "john@x.com", "Mgr", "5551234", "john@x.com",
       "5551234", 0, 0⟩ (by decide),
   (C1_apply_rollback_roundtrip sampleStore sampleTargets sampleNews 1 (by decide)).2.2
     2 (by decide)⟩

end BulkUpdate
